import Mathlib

/-!
Verification development for the `universal-regex-handler` package
(dialect wrappers `JavaRegex`, `PythonRegex`, `GoRegex`, `RustRegex`,
`CSharpRegex` around the JavaScript `RegExp` primitive).

The underlying regex execution primitive is out of scope of the package
(spec section 1); it is modelled as an abstract `Matcher`: given the text
(as a list of UTF-16 code units, modelled by `List Char`) and a start
offset, it returns the leftmost match at or after that offset as a
`(startIndex, length)` pair, or `none`.  Concrete instances used by the
claims: `emptyM` (a pattern matching the empty string at every boundary)
and `litM pat` (a literal-string pattern).  The wrapper code from
`src/Library/*.ts` is embedded on top of this model; iteration loops
that the source writes as `while` loops over a mutable `lastIndex`
cursor are embedded as fuel-indexed structural recursions, with fuel
chosen large enough for every terminating run of the source loop.
-/

/-- Abstract model of a compiled regex engine handle: leftmost match of
the pattern in the given text at or after the given offset, as
`(startIndex, length)`. -/
def Matcher : Type := List Char → Nat → Option (Nat × Nat)

/-- Engine behaviour of a pattern that matches the empty string at every
code-unit boundary (e.g. the empty pattern `""`): at any offset inside
the text it yields a zero-length match at that offset. -/
def emptyM : Matcher := fun t s => if s ≤ t.length then some (s, 0) else none

/-- Leftmost occurrence of the literal `pat` in `t` at or after offset `s`. -/
def litFind (pat t : List Char) (s : Nat) : Option Nat :=
  (List.range (t.length + 1)).find? (fun j => decide (s ≤ j) && pat.isPrefixOf (t.drop j))

/-- Engine behaviour of a literal-string pattern. -/
def litM (pat : List Char) : Matcher :=
  fun t s => (litFind pat t s).map (fun j => (j, pat.length))

/-- `text.substring(pos, pos + len)` on code-unit lists. -/
def sliceL (t : List Char) (pos len : Nat) : List Char := (t.drop pos).take len

/-- JavaScript global-regex `exec` semantics, one step: from cursor `li`,
fail (resetting the cursor) if the cursor passed the end of the input or
there is no further match, otherwise return the match and move the
cursor to its end. -/
def execG (m : Matcher) (t : List Char) (li : Nat) : Option (Nat × Nat) × Nat :=
  if li > t.length then (none, 0)
  else
    match m t li with
    | none => (none, 0)
    | some (j, l) => (some (j, l), j + l)

/-- Model of the `CSharpMatch` class: matched text, capture groups,
match index.  The abstract engine does not surface capture groups, so
`groups` is populated with `[]` throughout. -/
structure CSharpMatchT where
  value : String
  groups : List String
  index : Nat
  deriving DecidableEq, Repr

/-- `CSharpMatch.NextMatch` (src/Library/CSharp.ts lines 225-230): logs
a warning and returns `null`.  The first component models the
`console.warn` side channel, the second the return value. -/
def csNextMatch (_ : CSharpMatchT) : List String × Option CSharpMatchT :=
  (["CSharpMatch.NextMatch is not fully supported in JavaScript. Use Matches() to get all matches and iterate."],
   none)

/-- Loop of `CSharpRegex.Matches` (src/Library/CSharp.ts lines 54-68):
repeated global `exec`, pushing each match, bumping the cursor by one
when it did not advance (zero-length match). -/
def csMatchesLoop (m : Matcher) (t : List Char) : Nat → Nat → List CSharpMatchT → List CSharpMatchT
  | 0, _, acc => acc
  | fuel + 1, li, acc =>
    match execG m t li with
    | (none, _) => acc
    | (some (j, l), li1) =>
      let li2 := if li1 = j then li1 + 1 else li1
      csMatchesLoop m t fuel li2 (acc ++ [⟨String.mk (sliceL t j l), [], j⟩])

/-- `CSharpRegex.Matches`: collect all matches of the (global) pattern. -/
def csMatches (m : Matcher) (t : String) : List CSharpMatchT :=
  csMatchesLoop m t.data (t.data.length + 2) 0 []

/-- `CSharpRegex.Escape` metacharacter set (src/Library/CSharp.ts
line 101): dash, slash, backslash, caret, dollar, star, plus, question
mark, dot, parentheses, pipe, square brackets, curly braces. -/
def isMeta (c : Char) : Bool :=
  c = '-' || c = '/' || c = '\\' || c = '^' || c = '$' || c = '*' || c = '+' ||
  c = '?' || c = '.' || c = '(' || c = ')' || c = '|' || c = '[' || c = ']' ||
  c = Char.ofNat 123 || c = Char.ofNat 125

/-- `CSharpRegex.Escape` (src/Library/CSharp.ts lines 100-102): the
global single-character-class replace prefixes every metacharacter with
a backslash; on code-unit lists this is a per-character map. -/
def escList : List Char → List Char
  | [] => []
  | c :: rest => if isMeta c then '\\' :: c :: escList rest else c :: escList rest

/-- `CSharpRegex.Unescape` (src/Library/CSharp.ts lines 109-111): the
global replace of backslash-followed-by-metacharacter by the captured
metacharacter scans left to right and drops one backslash before each
metacharacter. -/
def unescList : List Char → List Char
  | [] => []
  | [c] => [c]
  | c :: d :: rest =>
    if c = '\\' ∧ isMeta d then d :: unescList rest
    else c :: unescList (d :: rest)

/-- `CSharpRegex.Escape` on strings. -/
def csEscape (s : String) : String := String.mk (escList s.data)

/-- `CSharpRegex.Unescape` on strings. -/
def csUnescape (s : String) : String := String.mk (unescList s.data)

/-- Model of a `RustRegex` instance: the compiled engine handle
(abstracted by a `Matcher`), the pattern source, the effective flag
string of the stored `RegExp`, the public `unicode` field, and the
stored `RegExp`'s `lastIndex` cursor. -/
structure RustRegexT where
  matcher : Matcher
  source : String
  flagsStr : String
  unicode : Bool
  lastIndex : Nat

/-- `RustRegex` constructor (src/Library/Rust.ts lines 17-21): force the
`u` flag into the effective flags, record `unicode`, compile. -/
def rustNew (m : Matcher) (pattern flags : String) : RustRegexT :=
  let eff := if flags.data.contains 'u' then flags else flags ++ "u"
  ⟨m, pattern, eff, eff.data.contains 'u', 0⟩

/-- `this.regex.exec(text)` on the stored (possibly global) `RegExp`:
a global regex searches from `lastIndex` and updates it, a non-global
regex always searches from offset 0 and leaves the instance unchanged. -/
def rustExec (r : RustRegexT) (t : String) : Option (Nat × Nat) × RustRegexT :=
  if r.flagsStr.data.contains 'g' then
    if r.lastIndex > t.data.length then (none, { r with lastIndex := 0 })
    else
      match r.matcher t.data r.lastIndex with
      | none => (none, { r with lastIndex := 0 })
      | some (j, l) => (some (j, l), { r with lastIndex := j + l })
  else (r.matcher t.data 0, r)

/-- `RustRegex.find` (src/Library/Rust.ts lines 46-49): first match text
or `null`.  The second component is the receiver's state after the call
(the stored regex's `lastIndex` may have moved). -/
def rustFind (r : RustRegexT) (t : String) : Option String × RustRegexT :=
  match rustExec r t with
  | (o, r2) => (o.map (fun jl => String.mk (sliceL t.data jl.1 jl.2)), r2)

/-- `RustRegex.isMatchFull` (src/Library/Rust.ts lines 223-228):
`match !== null && match.index === 0 && match[0].length === text.length`. -/
def rustIsMatchFull (r : RustRegexT) (t : String) : Bool × RustRegexT :=
  let p := rustExec r t
  ((match p.1 with
    | some (j, l) => decide (j = 0) && decide (l = t.data.length)
    | none => false), p.2)

/-- `string.replace('i', '')` on the flag string: removes the first
occurrence of the character only. -/
def removeFirstChar (c : Char) : List Char → List Char
  | [] => []
  | x :: rest => if x = c then rest else x :: removeFirstChar c rest

/-- `RustRegex.caseInsensitive` (src/Library/Rust.ts lines 121-124):
builds the new flag string and returns a brand-new instance compiled by
the engine capability `compile`; the receiver is untouched.  Result is
`(receiver state after the call, returned object)`. -/
def rustCaseInsensitive (compile : String → String → Matcher) (r : RustRegexT)
    (enabled : Bool) : RustRegexT × RustRegexT :=
  let fl := String.mk (removeFirstChar 'i' r.flagsStr.data) ++ (if enabled then "i" else "")
  (r, rustNew (compile r.source fl) r.source fl)

/-- `RustRegex.setUnicode` (src/Library/Rust.ts lines 131-134):
`this.unicode = enabled; return this;` — assigns the public field in
place and returns the receiver itself.  Result is
`(receiver state after the call, returned object)`. -/
def rustSetUnicode (r : RustRegexT) (enabled : Bool) : RustRegexT × RustRegexT :=
  let r2 := { r with unicode := enabled }
  (r2, r2)

/-- `\w` character class used by the backreference scan. -/
def isWordChar (c : Char) : Bool := c.isAlphanum || c = '_'

/-- Tail test of the backreference regex
`(?<!\\)(?:\\\d+|\\k<\w+>)` once a non-escaped `\` has been seen:
either a digit follows, or `k<` followed by one or more word characters
and `>`. -/
def backrefTail : List Char → Bool
  | 'k' :: '<' :: r2 =>
    let run := r2.takeWhile isWordChar
    !run.isEmpty && ((r2.drop run.length).head? == some '>')
  | d :: _ => d.isDigit
  | [] => false

/-- Scan of `/(?<!\\)(?:\\\d+|\\k<\w+>)/.test(pattern)`
(src/Library/Go.ts line 27): some position holds a `\` not preceded by
a `\` and followed by a backreference body. -/
def goHasBackrefAux (prev : Option Char) : List Char → Bool
  | [] => false
  | c :: rest =>
    (decide (prev ≠ some '\\') && decide (c = '\\') && backrefTail rest) ||
      goHasBackrefAux (some c) rest

/-- Backreference detection over a whole pattern. -/
def goHasBackref (p : List Char) : Bool := goHasBackrefAux none p

/-- The advisory warning text logged by the `GoRegex` constructor. -/
def goWarnMsg : String :=
  "Go's RE2 engine (and this wrapper) does not support backreferences."

/-- Model of a constructed `GoRegex` instance (engine handle abstracted
away; `warnings` models the `console.warn` side channel). -/
structure GoRegexT where
  originalPattern : String
  flagsStr : String
  warnings : List String
  deriving DecidableEq, Repr

/-- Raw-string stripping of the `GoRegex` constructor
(src/Library/Go.ts lines 19-21). -/
def goStripRaw (p : List Char) : List Char :=
  if p.head? = some '`' ∧ p.getLast? = some '`' then (p.drop 1).dropLast else p

/-- `GoRegex` constructor (src/Library/Go.ts lines 18-32): strip raw
string markers, compile with the underlying engine (abstracted by the
`engineAccepts` capability — `new RegExp` throws exactly when it
rejects the pattern/flag pair), then, after successful compilation,
scan for backreference syntax and log the advisory warning. -/
def goNew (pattern flags : String) (engineAccepts : List Char → String → Bool) :
    Except String GoRegexT :=
  let p := goStripRaw pattern.data
  if engineAccepts p flags then
    Except.ok ⟨String.mk p, flags, if goHasBackref p then [goWarnMsg] else []⟩
  else Except.error "Invalid regular expression"

/-- Model of a `PythonRegex` instance: pattern, constructor flag string,
and the abstract engine behaviour of the compiled pattern.  The class
stores no `RegExp` object; every operation compiles a fresh one. -/
structure PyRegexT where
  pattern : String
  flagsStr : String
  matcher : Matcher

/-- `PythonRegex.search` (src/Library/Python.ts lines 200-203):
`compileRegex()` builds a brand-new `RegExp` (its `lastIndex` starts at
0) and `exec` runs on that fresh object, so the search starts at offset
0 and the stored instance is untouched.  The second component is the
instance state after the call. -/
def pySearch (r : PyRegexT) (t : String) : Option (Nat × Nat) × PyRegexT :=
  (r.matcher t.data 0, r)

/-- Loop of `PythonRegex.findall` (current revision,
src/Library/Python.ts lines 210-221): repeated global `exec`, pushing
each matched text, bumping the cursor by one after a zero-length match
to avoid an infinite loop. -/
def pyFindallLoop (m : Matcher) (t : List Char) : Nat → Nat → List String → List String
  | 0, _, acc => acc
  | fuel + 1, li, acc =>
    match execG m t li with
    | (none, _) => acc
    | (some (j, l), li1) =>
      let li2 := if l = 0 then li1 + 1 else li1
      pyFindallLoop m t fuel li2 (acc ++ [String.mk (sliceL t j l)])

/-- `PythonRegex.findall`. -/
def pyFindall (m : Matcher) (t : String) : List String :=
  pyFindallLoop m t.data (t.data.length + 2) 0 []

/-- Match collection performed by `String.prototype.replace` with a
global regex (ECMAScript `RegExp.prototype[Symbol.replace]`): repeated
`exec` from the cursor, advancing the cursor by one extra code unit
after a zero-length match (`AdvanceStringIndex`), stopping when the
cursor passes the end or no further match exists. -/
def jsMatchesAux (m : Matcher) (t : List Char) : Nat → Nat → List (Nat × Nat)
  | 0, _ => []
  | fuel + 1, li =>
    if li > t.length then []
    else
      match m t li with
      | none => []
      | some (j, l) => (j, l) :: jsMatchesAux m t fuel (if l = 0 then j + 1 else j + l)

/-- The list of matches a global replace visits, in scan order. -/
def jsMatchesL (m : Matcher) (t : List Char) : List (Nat × Nat) :=
  jsMatchesAux m t (t.length + 2) 0

/-- Output construction of `text.replace(regex, repl)` with a global
regex and a plain replacement string: every visited match is replaced. -/
def jsReplAllAux (t repl : List Char) : List (Nat × Nat) → Nat → List Char
  | [], pos => t.drop pos
  | (j, l) :: rest, pos => sliceL t pos (j - pos) ++ repl ++ jsReplAllAux t repl rest (j + l)

/-- Output construction of `text.replace(regex, callback)` as used by
`PythonRegex.sub` with a positive count (src/Library/Python.ts lines
331-340): the stateful callback replaces a match while
`replacedCount < count` and returns the match text unchanged
afterwards. -/
def pySubCountAux (t repl : List Char) (count : Nat) : List (Nat × Nat) → Nat → Nat → List Char
  | [], pos, _ => t.drop pos
  | (j, l) :: rest, pos, cnt =>
    if cnt < count then
      sliceL t pos (j - pos) ++ repl ++ pySubCountAux t repl count rest (j + l) (cnt + 1)
    else
      sliceL t pos (j - pos) ++ sliceL t j l ++ pySubCountAux t repl count rest (j + l) cnt

/-- `text.split('').join(repl)`: the characters of `t` joined by `repl`. -/
def emptyJoin (repl : List Char) : List Char → List Char
  | [] => []
  | [c] => [c]
  | c :: d :: rest => c :: (repl ++ emptyJoin repl (d :: rest))

/-- Empty-pattern path of `PythonRegex.sub` with a positive count
(src/Library/Python.ts lines 312-326): walk the characters, prefixing
`repl` to each one while fewer than `count` replacements were made. -/
def emptySubCnt (repl : List Char) (count : Nat) : List Char → Nat → List Char
  | [], _ => []
  | c :: rest, cnt =>
    if cnt < count then repl ++ c :: emptySubCnt repl count rest (cnt + 1)
    else c :: emptySubCnt repl count rest cnt

/-- `PythonRegex.sub` (current revision, src/Library/Python.ts lines
308-341) on code-unit lists: a special path for the empty pattern,
otherwise a global replace — full for count 0, callback-capped for a
positive count. -/
def pySubL (pattern : List Char) (m : Matcher) (repl t : List Char) (count : Nat) : List Char :=
  if pattern = [] then
    if count = 0 then repl ++ emptyJoin repl t
    else emptySubCnt repl count t 0
  else
    if count = 0 then jsReplAllAux t repl (jsMatchesL m t) 0
    else pySubCountAux t repl count (jsMatchesL m t) 0 0

/-- `PythonRegex.sub` on strings. -/
def pySub (pattern : String) (m : Matcher) (repl t : String) (count : Nat) : String :=
  String.mk (pySubL pattern.data m repl.data t.data count)

/-- Modelled from the spec: "a positive count caps the number of
matches actually replaced, leaving subsequent matches untouched in the
output; matches beyond the cap must be copied through verbatim" — the
output obtained from the match list by substituting `repl` for the
first `k` matches and copying every later match verbatim. -/
def specReplaceAux (t repl : List Char) (k : Nat) : List (Nat × Nat) → Nat → Nat → List Char
  | [], pos, _ => t.drop pos
  | (j, l) :: rest, pos, idx =>
    sliceL t pos (j - pos) ++ (if idx < k then repl else sliceL t j l) ++
      specReplaceAux t repl k rest (j + l) (idx + 1)

/-- The spec-side replacement of the first `k` matches of `ms`. -/
def specReplace (t repl : List Char) (ms : List (Nat × Nat)) (k : Nat) : List Char :=
  specReplaceAux t repl k ms 0 0

/-- Loop of `PythonRegex.split` (current revision,
src/Library/Python.ts lines 281-291): while the split budget remains
and a match exists in the remaining text, push the text up to the
match, advance past the consumed match, and count the split.  The
trailing push of the remaining text (line 292) is folded into every
exit path. -/
def pySplitGo (m : Matcher) (t : List Char) (maxsplit : Int) :
    Nat → Nat → Nat → List (List Char) → List (List Char)
  | 0, cp, _, acc => acc ++ [t.drop cp]
  | fuel + 1, cp, splits, acc =>
    if maxsplit = -1 ∨ (splits : Int) < maxsplit then
      match m (t.drop cp) 0 with
      | some (j, l) =>
        pySplitGo m t maxsplit fuel (cp + j + l) (splits + 1) (acc ++ [sliceL t cp j])
      | none => acc ++ [t.drop cp]
    else acc ++ [t.drop cp]

/-- `PythonRegex.split` (src/Library/Python.ts lines 262-299) on
code-unit lists: the empty pattern takes a character-splitting path,
otherwise the scan loop runs and a trailing empty piece is popped. -/
def pySplitL (pattern : List Char) (m : Matcher) (t : List Char) (maxsplit : Int) :
    List (List Char) :=
  if pattern = [] then
    let chars := t.map (fun c => [c])
    if maxsplit = -1 then [] :: chars
    else [] :: (chars.take maxsplit.toNat ++ [(chars.drop maxsplit.toNat).flatten])
  else
    let res := pySplitGo m t maxsplit (t.length + maxsplit.toNat + 2) 0 0 []
    if res.getLast? = some [] then res.dropLast else res

/-- `PythonRegex.split` on strings. -/
def pySplit (pattern : String) (m : Matcher) (t : String) (maxsplit : Int) : List String :=
  (pySplitL pattern.data m t.data maxsplit).map String.mk

/-- ECMAScript `String.prototype.split` with a regex separator and no
limit (used by `GoRegex.split` when `n = -1`): try an anchored match at
each position `q`; an empty or unmatched position advances `q` by one;
a match that consumed something emits the piece since `p` and restarts
after the match. -/
def jsSplitGo (m : Matcher) (t : List Char) :
    Nat → Nat → Nat → List (List Char) → List (List Char)
  | 0, p, _, acc => acc ++ [t.drop p]
  | fuel + 1, p, q, acc =>
    if q ≥ t.length then acc ++ [t.drop p]
    else
      match m t q with
      | some (j, l) =>
        if j = q then
          if min (q + l) t.length = p then jsSplitGo m t fuel p (q + 1) acc
          else
            jsSplitGo m t fuel (min (q + l) t.length) (min (q + l) t.length)
              (acc ++ [sliceL t p (q - p)])
        else jsSplitGo m t fuel p (q + 1) acc
      | none => jsSplitGo m t fuel p (q + 1) acc

/-- ECMAScript `String.prototype.split` with a regex separator. -/
def jsSplitL (m : Matcher) (t : List Char) : List (List Char) :=
  if t.length = 0 then
    match m t 0 with
    | some _ => []
    | none => [t]
  else jsSplitGo m t (2 * t.length + 2) 0 0 []

/-- Loop of `GoRegex.split` for a non-negative limit
(src/Library/Go.ts lines 107-121): while a match exists and fewer than
`n - 1` splits were made, emit the piece before the match and continue
after it; finally push the remaining text. -/
def goSplitGo (m : Matcher) (n : Int) :
    Nat → List Char → Nat → List (List Char) → List (List Char)
  | 0, cs, _, acc => acc ++ [cs]
  | fuel + 1, cs, count, acc =>
    match m cs 0 with
    | some (j, l) =>
      if (count : Int) < n - 1 then
        goSplitGo m n fuel (cs.drop (j + l)) (count + 1) (acc ++ [cs.take j])
      else acc ++ [cs]
    | none => acc ++ [cs]

/-- `GoRegex.split` (src/Library/Go.ts lines 102-122) on code-unit
lists: `n = -1` delegates to the native `String.split`, otherwise the
counted loop runs. -/
def goSplitL (m : Matcher) (t : List Char) (n : Int) : List (List Char) :=
  if n = -1 then jsSplitL m t else goSplitGo m n (n.toNat + 1) t 0 []

/-- `GoRegex.split` on strings. -/
def goSplit (m : Matcher) (t : String) (n : Int) : List String :=
  (goSplitL m t.data n).map String.mk

/-- Character class of the directive regex: the flag letters `i`, `m`,
`x`, `s` and the negation dash. -/
def flagChar (c : Char) : Bool :=
  c = 'i' || c = 'm' || c = 'x' || c = 's' || c = '-'

/-- Global scan of the directive regex (a parenthesis, a question mark,
one or more flag-class characters, a closing parenthesis) over the
pattern, exactly as the repeated `exec` of `convertPattern`
(src/Library/Java.ts lines 30-54) visits it: leftmost, non-overlapping,
advancing by one on a failed position.  Returns the directive bodies in
order together with the pattern with all directive groups removed
(line 60).  Fuel-indexed; `javaScan` supplies enough fuel for any
input. -/
def javaScanF : Nat → List Char → List (List Char) × List Char
  | 0, cs => ([], cs)
  | fuel + 1, cs =>
    match cs with
    | '(' :: '?' :: rest =>
      let run := rest.takeWhile flagChar
      if run.isEmpty then
        let pr := javaScanF fuel ('?' :: rest)
        (pr.1, '(' :: pr.2)
      else
        match rest.drop run.length with
        | ')' :: rest2 =>
          let pr := javaScanF fuel rest2
          (run :: pr.1, pr.2)
        | _ =>
          let pr := javaScanF fuel ('?' :: rest)
          (pr.1, '(' :: pr.2)
    | c :: rest =>
      let pr := javaScanF fuel rest
      (pr.1, c :: pr.2)
    | [] => ([], [])

/-- The directive bodies and the stripped pattern of a Java pattern. -/
def javaScan (p : List Char) : List (List Char) × List Char :=
  javaScanF (p.length + 1) p

/-- `Set.add`: append the element unless already present (JavaScript
sets preserve insertion order). -/
def addElem (l : List Char) (c : Char) : List Char :=
  if c ∈ l then l else l ++ [c]

/-- `Set.delete`: remove the element (sets hold no duplicates, so a
filter is the removal). -/
def remElem (l : List Char) (c : Char) : List Char :=
  l.filter (fun x => decide (x ≠ c))

/-- Processing of one directive body by `convertPattern`
(src/Library/Java.ts lines 39-53): walk the characters; at a dash, add
every following character up to the next dash to `flagsToRemove` and
delete it from `flagsToAdd`; otherwise add the character to
`flagsToAdd` unless it is already in `flagsToRemove`.  State is the
pair `(flagsToAdd, flagsToRemove)`. -/
def v1Dir : List Char → List Char → List Char → List Char × List Char
  | [], add, rem => (add, rem)
  | c :: rest, add, rem =>
    if c = '-' then
      let seg := rest.takeWhile (fun x => decide (x ≠ '-'))
      let p := seg.foldl (fun ar x => (remElem ar.1 x, addElem ar.2 x)) (add, rem)
      v1Dir rest p.1 p.2
    else if c ∈ rem then v1Dir rest add rem
    else v1Dir rest (addElem add c) rem

/-- One step of the directive loop over the `(flagsToAdd, flagsToRemove)`
accumulator pair. -/
def v1Step (ar : List Char × List Char) (d : List Char) : List Char × List Char :=
  v1Dir d ar.1 ar.2

/-- The resolved flag string of `JavaRegex.convertPattern`: all
directives processed left to right into the two accumulating sets, then
`Array.from(flagsToAdd).join('')`. -/
def javaFlagsV1 (p : String) : String :=
  String.mk (((javaScan p.data).1.foldl v1Step ([], [])).1)

/-- The stripped pattern of `JavaRegex.convertPattern`
(`pattern.replace(flagRegex, '')`). -/
def javaStripped (p : String) : String :=
  String.mk (javaScan p.data).2

/-- Whether a flag character occurs in some removal segment of a
directive body, i.e. after a dash and before the next dash. -/
def inRemSeg : List Char → Char → Bool
  | [], _ => false
  | c :: rest, x =>
    (if c = '-' then (rest.takeWhile (fun y => decide (y ≠ '-'))).contains x else false) ||
      inRemSeg rest x

/-- Claim C10: for every `CSharpMatch` object, in every state and for
every underlying input, `NextMatch()` returns `null`; subsequent
matches are only available through `Matches()`. -/
theorem csharp_next_match_null : ∀ m : CSharpMatchT, (csNextMatch m).2 = none := by
  intro m
  rfl

theorem csharp_next_match_sanity :
    (csNextMatch ⟨"a", [], 0⟩).2 = none ∧ (csNextMatch ⟨"a", [], 0⟩).1 ≠ [] := by
  constructor
  · rfl
  · decide

/-- Claim C9: constructing a `GoRegex` from a pattern containing
unescaped backreference syntax never fails because of the
backreference: whenever the underlying engine accepts the (stripped)
pattern, construction completes normally, and the backreference scan
only contributes the non-fatal advisory warning. -/
theorem go_backref_warning_nonfatal :
    ∀ (pattern flags : String) (engineAccepts : List Char → String → Bool),
      engineAccepts (goStripRaw pattern.data) flags = true →
      goNew pattern flags engineAccepts =
        Except.ok ⟨String.mk (goStripRaw pattern.data), flags,
          if goHasBackref (goStripRaw pattern.data) then [goWarnMsg] else []⟩ := by
  intro pattern flags eng h
  simp [goNew, h]

theorem go_backref_warning_nonfatal_w :
    goNew "(a)\\1" "" (fun _ _ => true) =
      Except.ok ⟨String.mk (goStripRaw ("(a)\\1").data), "",
        if goHasBackref (goStripRaw ("(a)\\1").data) then [goWarnMsg] else []⟩ ∧
    goHasBackref (goStripRaw ("(a)\\1").data) = true := by
  constructor
  · exact go_backref_warning_nonfatal "(a)\\1" "" (fun _ _ => true) rfl
  · decide

/-- Claim C8 (corrected) counterexample: `setUnicode` does mutate the
receiver.  On a fresh `RustRegex("abc")` the public `unicode` field is
`true`; after `setUnicode(false)` the receiver's field is `false`, and
the returned object is the receiver itself rather than a new instance. -/
theorem rust_set_unicode_mutates_cex :
    (rustNew (litM ['a', 'b', 'c']) "abc" "").unicode = true ∧
    ((rustSetUnicode (rustNew (litM ['a', 'b', 'c']) "abc" "") false).1).unicode = false ∧
    (rustSetUnicode (rustNew (litM ['a', 'b', 'c']) "abc" "") false).2 =
      (rustSetUnicode (rustNew (litM ['a', 'b', 'c']) "abc" "") false).1 := by
  refine ⟨by decide, by decide, rfl⟩

/-- Claim C8 (amended): `caseInsensitive` is builder-style — it leaves
the receiver completely unchanged and returns a fresh instance sharing
the pattern source; `setUnicode`, in contrast, assigns the public
advisory `unicode` field of the receiver in place (leaving the pattern
text and the engine flag string unchanged) and returns the receiver
itself. -/
theorem rust_flag_builder_ops :
    (∀ (compile : String → String → Matcher) (r : RustRegexT) (e : Bool),
        (rustCaseInsensitive compile r e).1 = r ∧
        ((rustCaseInsensitive compile r e).2).source = r.source) ∧
    (∀ (r : RustRegexT) (e : Bool),
        ((rustSetUnicode r e).1).source = r.source ∧
        ((rustSetUnicode r e).1).flagsStr = r.flagsStr ∧
        ((rustSetUnicode r e).1).unicode = e ∧
        (rustSetUnicode r e).2 = (rustSetUnicode r e).1) := by
  constructor
  · intro compile r e
    exact ⟨rfl, rfl⟩
  · intro r e
    exact ⟨rfl, rfl, rfl, rfl⟩

/-- Claim C7 (corrected) counterexample: `RustRegex.find` is not
stateless when the stored pattern carries the global flag.  With
pattern `"a"`, flags `"g"`, input `"a"`, the first call returns `"a"`
and moves the stored cursor, and the immediately following call on the
same instance and input returns `null`. -/
theorem rust_find_global_stateful_cex :
    (rustFind (rustNew (litM ['a']) "a" "g") "a").1 = some "a" ∧
    (rustFind ((rustFind (rustNew (litM ['a']) "a" "g") "a").2) "a").1 = none := by
  constructor
  · decide
  · decide

/-- On a freshly-constructed instance (cursor at 0) `exec` searches from
offset 0 whether or not the global flag is present. -/
lemma rustExec_fresh (r : RustRegexT) (t : String) (h : r.lastIndex = 0) :
    (rustExec r t).1 = r.matcher t.data 0 := by
  unfold rustExec
  cases hg : r.flagsStr.data.contains 'g' with
  | false => simp [hg]
  | true =>
    simp only [hg, h, if_true]
    rw [if_neg (by omega)]
    cases hm : r.matcher t.data 0 with
    | none => simp
    | some jl => cases jl with | mk j l => simp

lemma rustIsMatchFull_fresh (r : RustRegexT) (t : String) (h : r.lastIndex = 0) :
    (rustIsMatchFull r t).1 = true ↔ r.matcher t.data 0 = some (0, t.data.length) := by
  unfold rustIsMatchFull
  simp only []
  rw [rustExec_fresh r t h]
  cases hm : r.matcher t.data 0 with
  | none => simp
  | some jl =>
    cases jl with
    | mk j l =>
      simp [Bool.and_eq_true, decide_eq_true_eq, Prod.ext_iff, and_comm]

lemma litM_full_iff (p t : List Char) : litM p t 0 = some (0, t.length) ↔ p = t := by
  constructor
  · intro h
    unfold litM at h
    cases hf : litFind p t 0 with
    | none => rw [hf] at h; simp at h
    | some j =>
      rw [hf] at h
      simp at h
      obtain ⟨hj, hl⟩ := h
      subst hj
      unfold litFind at hf
      have hpred := List.find?_some hf
      simp only [Bool.and_eq_true, decide_eq_true_eq, List.drop_zero] at hpred
      exact List.IsPrefix.eq_of_length (List.isPrefixOf_iff_prefix.mp hpred.2) hl
  · intro h
    subst h
    unfold litM litFind
    rw [List.range_succ_eq_map, List.find?_cons_of_pos]
    · simp
    · simp [List.isPrefixOf_iff_prefix]

/-- Claim C5: `isMatchFull(input)` is true iff the engine's match from
offset 0 exists and spans the whole input (start 0, end = input
length); for a literal pattern this says `isMatchFull` is true exactly
when the input equals the pattern, and in particular pattern `"abc"`
fully matches `"abc"` but not `"abcd"`. -/
theorem rust_is_match_full_spec :
    (∀ (m : Matcher) (pattern flags t : String),
        (rustIsMatchFull (rustNew m pattern flags) t).1 = true ↔
          m t.data 0 = some (0, t.data.length)) ∧
    (∀ p t : String,
        (rustIsMatchFull (rustNew (litM p.data) p "") t).1 = true ↔ p = t) ∧
    (rustIsMatchFull (rustNew (litM "abc".data) "abc" "") "abc").1 = true ∧
    (rustIsMatchFull (rustNew (litM "abc".data) "abc" "") "abcd").1 = false := by
  have hbase : ∀ (m : Matcher) (pattern flags t : String),
      (rustIsMatchFull (rustNew m pattern flags) t).1 = true ↔
        m t.data 0 = some (0, t.data.length) := by
    intro m pattern flags t
    exact rustIsMatchFull_fresh (rustNew m pattern flags) t rfl
  refine ⟨hbase, ?_, by decide, by decide⟩
  intro p t
  rw [hbase]
  rw [litM_full_iff]
  constructor
  · intro h
    exact congrArg String.mk h
  · intro h
    rw [h]

/-- Claim C7 (amended): the first-match operations are stateless for
every pattern whose stored flags do not include the global flag — and
`PythonRegex.search` is stateless for every flag set, because it
compiles a fresh regex per call; with the global flag set, however,
`RustRegex.find` retains the stored cursor across calls (see the
counterexample), so two consecutive calls agree and leave the instance
unchanged only under the stated conditions. -/
theorem first_match_stateless_nonglobal :
    (∀ (r : RustRegexT) (t : String), r.flagsStr.data.contains 'g' = false →
        (rustFind r t).2 = r ∧
        (rustFind ((rustFind r t).2) t).1 = (rustFind r t).1) ∧
    (∀ (r : PyRegexT) (t : String),
        (pySearch r t).2 = r ∧
        (pySearch ((pySearch r t).2) t).1 = (pySearch r t).1) := by
  constructor
  · intro r t h
    have hstate : (rustFind r t).2 = r := by
      unfold rustFind rustExec
      rw [h]
      simp
    exact ⟨hstate, by rw [hstate]⟩
  · intro r t
    exact ⟨rfl, rfl⟩

theorem first_match_stateless_nonglobal_w :
    ((rustNew (litM ['a']) "a" "").flagsStr.data.contains 'g' = false) ∧
    (rustFind (rustNew (litM ['a']) "a" "") "a").2 = rustNew (litM ['a']) "a" "" ∧
    (rustFind ((rustFind (rustNew (litM ['a']) "a" "") "a").2) "a").1 =
      (rustFind (rustNew (litM ['a']) "a" "") "a").1 := by
  refine ⟨by decide, ?_⟩
  exact (first_match_stateless_nonglobal.1 (rustNew (litM ['a']) "a" "") "a" (by decide))

lemma unescList_cons_nonmeta (c : Char) (s : List Char) (hm : isMeta c = false) :
    unescList (c :: s) = c :: unescList s := by
  cases s with
  | nil => simp [unescList]
  | cons x rest =>
    have hcne : ¬(c = '\\' ∧ isMeta x = true) := by
      rintro ⟨hc, _⟩
      rw [hc] at hm
      exact absurd hm (by decide)
    simp only [unescList]
    rw [if_neg (by simpa using hcne)]

lemma unesc_esc (s : List Char) : unescList (escList s) = s := by
  induction s with
  | nil => rfl
  | cons c r ih =>
    cases hm : isMeta c with
    | true => simp [escList, unescList, hm, ih]
    | false =>
      simp only [escList, hm, Bool.false_eq_true, if_false]
      rw [unescList_cons_nonmeta c _ hm, ih]

/-- Claim C6: for every string made only of plain letters and the
escapable metacharacters, `Unescape (Escape S) = S` — `Escape` prefixes
each metacharacter with exactly one backslash and `Unescape` removes
exactly one backslash before each such character, so they are exact
inverses on such strings. -/
theorem escape_unescape_roundtrip :
    ∀ S : String, (∀ c ∈ S.data, c.isAlpha = true ∨ isMeta c = true) →
      csUnescape (csEscape S) = S := by
  intro S _
  show String.mk (unescList (escList S.data)) = S
  rw [unesc_esc]

theorem escape_unescape_roundtrip_w :
    (∀ c ∈ ("ab\\(x]-c" : String).data, c.isAlpha = true ∨ isMeta c = true) ∧
    csUnescape (csEscape "ab\\(x]-c") = "ab\\(x]-c" := by
  refine ⟨by decide, ?_⟩
  exact escape_unescape_roundtrip "ab\\(x]-c" (by decide)

lemma pyFindallLoop_empty (m : Matcher) (t : List Char)
    (hin : ∀ s, s ≤ t.length → m t s = some (s, 0)) :
    ∀ (d li : Nat) (acc : List String), li + d = t.length + 1 →
      pyFindallLoop m t (d + 1) li acc = acc ++ List.replicate d "" := by
  intro d
  induction d with
  | zero =>
    intro li acc h
    have hgt : li > t.length := by omega
    rw [pyFindallLoop]
    unfold execG
    rw [if_pos hgt]
    simp
  | succ d ih =>
    intro li acc h
    have hle : li ≤ t.length := by omega
    rw [pyFindallLoop]
    unfold execG
    rw [if_neg (by omega), hin li hle]
    simp only [sliceL, List.take_zero, Nat.add_zero, eq_self_iff_true, if_true]
    rw [ih (li + 1) _ (by omega)]
    simp [List.replicate_succ]

lemma csMatchesLoop_empty (m : Matcher) (t : List Char)
    (hin : ∀ s, s ≤ t.length → m t s = some (s, 0)) :
    ∀ (d li : Nat) (acc : List CSharpMatchT), li + d = t.length + 1 →
      csMatchesLoop m t (d + 1) li acc =
        acc ++ (List.range' li d).map (fun i => (⟨"", [], i⟩ : CSharpMatchT)) := by
  intro d
  induction d with
  | zero =>
    intro li acc h
    have hgt : li > t.length := by omega
    rw [csMatchesLoop]
    unfold execG
    rw [if_pos hgt]
    simp
  | succ d ih =>
    intro li acc h
    have hle : li ≤ t.length := by omega
    rw [csMatchesLoop]
    unfold execG
    rw [if_neg (by omega), hin li hle]
    simp only [sliceL, List.take_zero, Nat.add_zero, eq_self_iff_true, if_true]
    rw [ih (li + 1) _ (by omega)]
    simp [List.range']

/-- Claim C2: iterating a pattern that matches the empty string at every
code-unit boundary over an input of length N terminates with exactly
N+1 matches, one per boundary — both for `PythonRegex.findall` and for
`CSharpRegex.Matches` — with the zero-length-match guard advancing the
cursor by exactly one code unit after each zero-length match and the
loop stopping once the cursor passes the end of the input. -/
theorem python_csharp_empty_iteration :
    ∀ (m : Matcher) (t : String),
      (∀ s, s ≤ t.data.length → m t.data s = some (s, 0)) →
      (∀ s, s > t.data.length → m t.data s = none) →
      pyFindall m t = List.replicate (t.length + 1) "" ∧
      csMatches m t =
        (List.range (t.length + 1)).map (fun i => (⟨"", [], i⟩ : CSharpMatchT)) := by
  intro m t hin hout
  constructor
  · show pyFindallLoop m t.data (t.data.length + 2) 0 [] = _
    have h := pyFindallLoop_empty m t.data hin (t.data.length + 1) 0 [] (by omega)
    rw [show t.data.length + 2 = (t.data.length + 1) + 1 from rfl] at h ⊢
    rw [h]
    rfl
  · show csMatchesLoop m t.data (t.data.length + 2) 0 [] = _
    have h := csMatchesLoop_empty m t.data hin (t.data.length + 1) 0 [] (by omega)
    rw [show t.data.length + 2 = (t.data.length + 1) + 1 from rfl] at h ⊢
    rw [h]
    rw [List.range_eq_range']
    rfl

theorem python_csharp_empty_iteration_w :
    pyFindall emptyM "ab" = List.replicate ("ab".length + 1) "" ∧
    csMatches emptyM "ab" =
      (List.range ("ab".length + 1)).map (fun i => (⟨"", [], i⟩ : CSharpMatchT)) := by
  refine python_csharp_empty_iteration emptyM "ab" ?_ ?_
  · intro s h
    unfold emptyM
    rw [if_pos h]
  · intro s h
    unfold emptyM
    rw [if_neg (by omega)]

lemma pySubCountAux_spec (t repl : List Char) (count : Nat) :
    ∀ (ms : List (Nat × Nat)) (pos idx : Nat),
      pySubCountAux t repl count ms pos (min idx count) =
        specReplaceAux t repl count ms pos idx := by
  intro ms
  induction ms with
  | nil => intro pos idx; rfl
  | cons jl rest ih =>
    intro pos idx
    cases jl with
    | mk j l =>
      by_cases hidx : idx < count
      · have h1 : min idx count = idx := by omega
        have h2 : min (idx + 1) count = idx + 1 := by omega
        have hrec := ih (j + l) (idx + 1)
        rw [h2] at hrec
        rw [pySubCountAux, specReplaceAux, h1, if_pos hidx, if_pos hidx, hrec]
      · have h1 : min idx count = count := by omega
        have h2 : min (idx + 1) count = count := by omega
        have hrec := ih (j + l) (idx + 1)
        rw [h2] at hrec
        rw [pySubCountAux, specReplaceAux, h1, if_neg (by omega), if_neg hidx]
        rw [hrec]

lemma jsReplAllAux_spec (t repl : List Char) :
    ∀ (ms : List (Nat × Nat)) (pos idx k : Nat), idx + ms.length ≤ k →
      jsReplAllAux t repl ms pos = specReplaceAux t repl k ms pos idx := by
  intro ms
  induction ms with
  | nil => intro pos idx k _; rfl
  | cons jl rest ih =>
    intro pos idx k h
    cases jl with
    | mk j l =>
      rw [jsReplAllAux, specReplaceAux, if_pos (by simp at h; omega)]
      rw [ih (j + l) (idx + 1) k (by simp at h ⊢; omega)]

lemma specReplaceAux_congr (t repl : List Char) :
    ∀ (ms : List (Nat × Nat)) (pos idx k1 k2 : Nat),
      (∀ i, idx ≤ i → i < idx + ms.length → (i < k1 ↔ i < k2)) →
      specReplaceAux t repl k1 ms pos idx = specReplaceAux t repl k2 ms pos idx := by
  intro ms
  induction ms with
  | nil => intro pos idx k1 k2 _; rfl
  | cons jl rest ih =>
    intro pos idx k1 k2 h
    cases jl with
    | mk j l =>
      rw [specReplaceAux, specReplaceAux]
      have hhead : (idx < k1) ↔ (idx < k2) :=
        h idx (le_refl idx) (by simp only [List.length_cons]; omega)
      have htail := ih (j + l) (idx + 1) k1 k2
        (by
          intro i h1 h2
          exact h i (by omega) (by simp only [List.length_cons] at h2 ⊢; omega))
      rw [htail]
      by_cases hi : idx < k1
      · rw [if_pos hi, if_pos (hhead.mp hi)]
      · rw [if_neg hi, if_neg (fun hc => hi (hhead.mpr hc))]

lemma string_data_ne_nil {p : String} (hp : p ≠ "") : p.data ≠ [] := by
  intro hd
  apply hp
  cases p with
  | mk d =>
    cases hd
    rfl

/-- Claim C3 (amended): for every non-empty pattern, substituting with a
positive count `c` replaces exactly the first `min(c, number of
matches)` matches in scan order and copies every later match through
verbatim, and a count of zero (the absent-count default) replaces every
match; substituting `"test"` by `"X"` in `"test test test"` with
count 2 yields `"X X test"`.  For the empty pattern `sub` takes a
special path that only inserts the replacement before each character
(shown positively here on `"abc"`), so the final-boundary match is not
replaced (see the counterexample). -/
theorem python_sub_count_cap :
    (∀ (pattern : String) (m : Matcher) (repl t : String) (c : Nat),
        pattern ≠ "" → 0 < c →
        pySub pattern m repl t c =
          String.mk (specReplace t.data repl.data (jsMatchesL m t.data)
            (min c (jsMatchesL m t.data).length))) ∧
    (∀ (pattern : String) (m : Matcher) (repl t : String),
        pattern ≠ "" →
        pySub pattern m repl t 0 =
          String.mk (specReplace t.data repl.data (jsMatchesL m t.data)
            (jsMatchesL m t.data).length)) ∧
    pySub "test" (litM "test".data) "X" "test test test" 2 = "X X test" ∧
    (jsMatchesL (litM "test".data) "test test test".data).length = 3 ∧
    pySub "" emptyM "x" "abc" 0 = "xaxbxc" := by
  refine ⟨?_, ?_, by decide, by decide, by decide⟩
  · intro pattern m repl t c hp hc
    unfold pySub pySubL
    rw [if_neg (string_data_ne_nil hp), if_neg (by omega)]
    apply congrArg String.mk
    have hs := pySubCountAux_spec t.data repl.data c (jsMatchesL m t.data) 0 0
    rw [show min 0 c = 0 from by omega] at hs
    rw [specReplace, hs]
    apply specReplaceAux_congr
    intro i _ h2
    omega
  · intro pattern m repl t hp
    unfold pySub pySubL
    rw [if_neg (string_data_ne_nil hp), if_pos rfl]
    apply congrArg String.mk
    rw [specReplace]
    exact jsReplAllAux_spec t.data repl.data (jsMatchesL m t.data) 0 0 _ (by omega)

theorem python_sub_count_cap_w :
    pySub "test" (litM "test".data) "X" "test test test" 2 =
      String.mk (specReplace "test test test".data "X".data
        (jsMatchesL (litM "test".data) "test test test".data)
        (min 2 (jsMatchesL (litM "test".data) "test test test".data).length)) :=
  python_sub_count_cap.1 "test" (litM "test".data) "X" "test test test" 2
    (by decide) (by decide)

/-- Claim C3 counterexample: with the empty pattern and count 0 the
claim requires every match to be replaced; the empty pattern has two
zero-length matches in `"a"` (at both boundaries), so replacing every
match yields `"xax"`, but `sub` returns `"xa"` — the final-boundary
match is not replaced. -/
theorem python_sub_empty_pattern_cex :
    pySub "" emptyM "x" "a" 0 = "xa" ∧
    (jsMatchesL emptyM "a".data).length = 2 ∧
    String.mk (specReplace "a".data "x".data (jsMatchesL emptyM "a".data)
      (jsMatchesL emptyM "a".data).length) = "xax" ∧
    ("xa" : String) ≠ "xax" := by
  refine ⟨by decide, by decide, by decide, by decide⟩

lemma pySplitGo_bound (m : Matcher) (t : List Char) (L : Nat) :
    ∀ (fuel cp splits : Nat) (acc : List (List Char)), splits ≤ L →
      (pySplitGo m t (L : Int) fuel cp splits acc).length ≤ acc.length + (L - splits) + 1 := by
  intro fuel
  induction fuel with
  | zero =>
    intro cp splits acc _
    rw [pySplitGo]
    simp only [List.length_append, List.length_cons, List.length_nil]
    omega
  | succ fuel ih =>
    intro cp splits acc hs
    rw [pySplitGo]
    by_cases hcond : (L : Int) = -1 ∨ (splits : Int) < (L : Int)
    · rw [if_pos hcond]
      have hlt : splits < L := by omega
      cases hm : m (t.drop cp) 0 with
      | none =>
        simp only [List.length_append, List.length_cons, List.length_nil]
        omega
      | some jl =>
        cases jl with
        | mk j l =>
          have := ih (cp + j + l) (splits + 1) (acc ++ [sliceL t cp j]) (by omega)
          simp only [List.length_append, List.length_cons, List.length_nil] at this ⊢
          omega
    · rw [if_neg hcond]
      simp only [List.length_append, List.length_cons, List.length_nil]
      omega

lemma goSplitGo_bound (m : Matcher) (n : Nat) :
    ∀ (fuel : Nat) (cs : List Char) (count : Nat) (acc : List (List Char)),
      (goSplitGo m (n : Int) fuel cs count acc).length ≤ acc.length + (n - 1 - count) + 1 := by
  intro fuel
  induction fuel with
  | zero =>
    intro cs count acc
    rw [goSplitGo]
    simp only [List.length_append, List.length_cons, List.length_nil]
    omega
  | succ fuel ih =>
    intro cs count acc
    rw [goSplitGo]
    cases hm : m cs 0 with
    | none =>
      simp only [List.length_append, List.length_cons, List.length_nil]
      omega
    | some jl =>
      cases jl with
      | mk j l =>
        show (if (count : Int) < (n : Int) - 1 then
            goSplitGo m (n : Int) fuel (cs.drop (j + l)) (count + 1) (acc ++ [cs.take j])
          else acc ++ [cs]).length ≤ acc.length + (n - 1 - count) + 1
        by_cases hc : (count : Int) < (n : Int) - 1
        · rw [if_pos hc]
          have := ih (cs.drop (j + l)) (count + 1) (acc ++ [cs.take j])
          simp only [List.length_append, List.length_cons, List.length_nil] at this ⊢
          omega
        · rw [if_neg hc]
          simp only [List.length_append, List.length_cons, List.length_nil]
          omega

/-- Claim C4 (amended): for `PythonRegex.split` with a non-empty
pattern, a positive limit `L` performs at most `L` splits, so there are
at most `L + 1` pieces, and splitting `"a,b,c"` on `","` yields
`["a","b","c"]` with the limit absent and `["a","b,c"]` with limit 1.
`GoRegex.split` instead treats a positive `n` as the maximum number of
pieces (at most `n - 1` splits): its result has at most `n` elements,
`n = 2` gives `["a","b,c"]`, and the limit-absent sentinel `-1` gives
`["a","b","c"]` (see the counterexample for `n = 1`). -/
theorem split_limit_semantics :
    (∀ (pattern : String) (m : Matcher) (t : String) (L : Nat),
        pattern ≠ "" → 1 ≤ L →
        (pySplit pattern m t (L : Int)).length ≤ L + 1) ∧
    pySplit "," (litM ",".data) "a,b,c" (-1) = ["a", "b", "c"] ∧
    pySplit "," (litM ",".data) "a,b,c" 1 = ["a", "b,c"] ∧
    (∀ (m : Matcher) (t : String) (n : Nat), 1 ≤ n →
        (goSplit m t (n : Int)).length ≤ n) ∧
    goSplit (litM ",".data) "a,b,c" 2 = ["a", "b,c"] ∧
    goSplit (litM ",".data) "a,b,c" (-1) = ["a", "b", "c"] := by
  refine ⟨?_, by decide, by decide, ?_, by decide, by decide⟩
  · intro pattern m t L hp hL
    unfold pySplit pySplitL
    rw [if_neg (string_data_ne_nil hp)]
    simp only [List.length_map]
    have hb := pySplitGo_bound m t.data L (t.data.length + (L : Int).toNat + 2) 0 0 [] (by omega)
    simp only [List.length_nil] at hb
    by_cases hlast :
        (pySplitGo m t.data (L : Int) (t.data.length + (L : Int).toNat + 2) 0 0 []).getLast? =
          some []
    · rw [if_pos hlast]
      have := List.length_dropLast
        (pySplitGo m t.data (L : Int) (t.data.length + (L : Int).toNat + 2) 0 0 [])
      omega
    · rw [if_neg hlast]
      omega
  · intro m t n hn
    unfold goSplit goSplitL
    rw [if_neg (by omega)]
    simp only [List.length_map]
    have hb := goSplitGo_bound m n ((n : Int).toNat + 1) t.data 0 []
    simp only [List.length_nil] at hb
    omega

theorem split_limit_semantics_w :
    (pySplit "," (litM ",".data) "a,b,c" ((1 : Nat) : Int)).length ≤ 1 + 1 ∧
    (goSplit (litM ",".data) "a,b,c" ((2 : Nat) : Int)).length ≤ 2 := by
  constructor
  · exact split_limit_semantics.1 "," (litM ",".data) "a,b,c" 1 (by decide) (by omega)
  · exact split_limit_semantics.2.2.2.1 (litM ",".data) "a,b,c" 2 (by omega)

/-- Claim C4 counterexample: the claim's example demands that splitting
`"a,b,c"` on `","` with limit 1 yield `["a","b,c"]`, but
`GoRegex.split` with `n = 1` performs no split at all (its loop runs
while `count < n - 1`) and returns the whole input as a single piece. -/
theorem go_split_limit_cex :
    goSplit (litM ",".data) "a,b,c" 1 = ["a,b,c"] ∧
    (["a,b,c"] : List String) ≠ ["a", "b,c"] := by
  exact ⟨by decide, by decide⟩

lemma mem_addElem {a c : Char} {l : List Char} : a ∈ addElem l c ↔ a ∈ l ∨ a = c := by
  unfold addElem
  by_cases h : c ∈ l
  · rw [if_pos h]
    constructor
    · exact Or.inl
    · rintro (h1 | rfl)
      · exact h1
      · exact h
  · rw [if_neg h]
    simp

lemma mem_remElem {a c : Char} {l : List Char} : a ∈ remElem l c ↔ a ∈ l ∧ a ≠ c := by
  unfold remElem
  simp

lemma segFold_pres (c : Char) :
    ∀ (seg : List Char) (ar : List Char × List Char), c ∈ ar.2 → c ∉ ar.1 →
      c ∈ (seg.foldl (fun ar x => (remElem ar.1 x, addElem ar.2 x)) ar).2 ∧
      c ∉ (seg.foldl (fun ar x => (remElem ar.1 x, addElem ar.2 x)) ar).1 := by
  intro seg
  induction seg with
  | nil => intro ar h1 h2; exact ⟨h1, h2⟩
  | cons x rest ih =>
    intro ar h1 h2
    rw [List.foldl_cons]
    apply ih
    · exact mem_addElem.mpr (Or.inl h1)
    · intro hc
      exact h2 (mem_remElem.mp hc).1

lemma segFold_est (c : Char) :
    ∀ (seg : List Char) (ar : List Char × List Char), c ∈ seg →
      c ∈ (seg.foldl (fun ar x => (remElem ar.1 x, addElem ar.2 x)) ar).2 ∧
      c ∉ (seg.foldl (fun ar x => (remElem ar.1 x, addElem ar.2 x)) ar).1 := by
  intro seg
  induction seg with
  | nil => intro ar h; cases h
  | cons x rest ih =>
    intro ar h
    rw [List.foldl_cons]
    by_cases hx : c = x
    · subst hx
      apply segFold_pres
      · exact mem_addElem.mpr (Or.inr rfl)
      · intro hc
        exact (mem_remElem.mp hc).2 rfl
    · apply ih
      cases h with
      | head => exact absurd rfl hx
      | tail _ h2 => exact h2

lemma v1Dir_pres (c : Char) :
    ∀ (d add rem : List Char), c ∈ rem → c ∉ add →
      c ∈ (v1Dir d add rem).2 ∧ c ∉ (v1Dir d add rem).1 := by
  intro d
  induction d with
  | nil => intro add rem h1 h2; exact ⟨h1, h2⟩
  | cons x rest ih =>
    intro add rem h1 h2
    rw [v1Dir]
    by_cases hdash : x = '-'
    · rw [if_pos hdash]
      have hseg := segFold_pres c (rest.takeWhile (fun y => decide (y ≠ '-'))) (add, rem) h1 h2
      exact ih _ _ hseg.1 hseg.2
    · rw [if_neg hdash]
      by_cases hin : x ∈ rem
      · rw [if_pos hin]
        exact ih add rem h1 h2
      · rw [if_neg hin]
        apply ih _ rem h1
        intro hc
        cases mem_addElem.mp hc with
        | inl h3 => exact h2 h3
        | inr h3 => exact hin (h3 ▸ h1)

lemma v1Dir_est (c : Char) :
    ∀ (d add rem : List Char), inRemSeg d c = true →
      c ∈ (v1Dir d add rem).2 ∧ c ∉ (v1Dir d add rem).1 := by
  intro d
  induction d with
  | nil => intro add rem h; cases h
  | cons x rest ih =>
    intro add rem h
    rw [inRemSeg] at h
    rw [v1Dir]
    by_cases hdash : x = '-'
    · rw [if_pos hdash]
      rw [if_pos hdash, Bool.or_eq_true] at h
      by_cases hseg : c ∈ rest.takeWhile (fun y => decide (y ≠ '-'))
      · have hest := segFold_est c (rest.takeWhile (fun y => decide (y ≠ '-'))) (add, rem) hseg
        exact v1Dir_pres c rest _ _ hest.1 hest.2
      · have hrest : inRemSeg rest c = true := by
          cases h with
          | inl h3 => exact absurd (by simpa using h3) hseg
          | inr h3 => exact h3
        exact ih _ _ hrest
    · rw [if_neg hdash]
      rw [if_neg hdash, Bool.false_or] at h
      by_cases hin : x ∈ rem
      · rw [if_pos hin]
        exact ih add rem h
      · rw [if_neg hin]
        exact ih _ rem h

lemma dirsFold_pres (c : Char) :
    ∀ (dirs : List (List Char)) (ar : List Char × List Char), c ∈ ar.2 → c ∉ ar.1 →
      c ∈ (dirs.foldl v1Step ar).2 ∧ c ∉ (dirs.foldl v1Step ar).1 := by
  intro dirs
  induction dirs with
  | nil => intro ar h1 h2; exact ⟨h1, h2⟩
  | cons d rest ih =>
    intro ar h1 h2
    rw [List.foldl_cons]
    have := v1Dir_pres c d ar.1 ar.2 h1 h2
    exact ih _ this.1 this.2

lemma dirsFold_removed (c : Char) :
    ∀ (dirs : List (List Char)) (ar : List Char × List Char),
      (∃ d ∈ dirs, inRemSeg d c = true) → c ∉ (dirs.foldl v1Step ar).1 := by
  intro dirs
  induction dirs with
  | nil =>
    intro ar h
    obtain ⟨d, hd, _⟩ := h
    cases hd
  | cons d rest ih =>
    intro ar h
    rw [List.foldl_cons]
    obtain ⟨e, he, hrem⟩ := h
    cases he with
    | head =>
      have hest := v1Dir_est c d ar.1 ar.2 hrem
      exact (dirsFold_pres c rest _ hest.1 hest.2).2
    | tail _ htl =>
      exact ih _ ⟨e, htl, hrem⟩

/-- Claim C1 (amended): the resolver of `JavaRegex.convertPattern`
processes directives left to right and resolves the two examples as
stated — `"(?i)(?-i)x"` gives flags `""` with stripped pattern `"x"`
and `"(?i)(?m)x(?-i)"` gives flags `"m"` — and a flag disabled by any
directive always ends disabled, so an enable followed by a later
disable ends disabled.  However, a disable is permanent: a flag
disabled by one directive and re-enabled by a later directive also ends
disabled (see the counterexample), unlike what the claim states. -/
theorem java_flags_last_disable_wins :
    (javaFlagsV1 "(?i)(?-i)x" = "" ∧ javaStripped "(?i)(?-i)x" = "x") ∧
    javaFlagsV1 "(?i)(?m)x(?-i)" = "m" ∧
    (∀ (p : String) (c : Char),
        (∃ d ∈ (javaScan p.data).1, inRemSeg d c = true) →
        c ∉ (javaFlagsV1 p).data) := by
  refine ⟨⟨by decide, by decide⟩, by decide, ?_⟩
  intro p c h
  show c ∉ ((javaScan p.data).1.foldl v1Step ([], [])).1
  exact dirsFold_removed c (javaScan p.data).1 ([], []) h

theorem java_flags_last_disable_wins_w :
    (∃ d ∈ (javaScan ("(?m)x(?-m)").data).1, inRemSeg d 'm' = true) ∧
    'm' ∉ (javaFlagsV1 "(?m)x(?-m)").data := by
  refine ⟨by decide, ?_⟩
  exact java_flags_last_disable_wins.2.2 "(?m)x(?-m)" 'm' (by decide)

/-- Claim C1 counterexample: by the claim, a flag disabled by one
directive and re-enabled by a later directive ends enabled, so
resolving `"(?-i)(?i)x"` should yield flags `"i"`; the resolver instead
yields flags `""` — once `i` entered `flagsToRemove`, the later `(?i)`
directive cannot re-add it. -/
theorem java_flags_reenable_cex :
    javaFlagsV1 "(?-i)(?i)x" = "" ∧
    javaStripped "(?-i)(?i)x" = "x" ∧
    'i' ∉ (javaFlagsV1 "(?-i)(?i)x").data := by
  exact ⟨by decide, by decide, by decide⟩
